import Mathlib

/-!
Verification of membership, heartbeat-ingestion and test-harness helpers of
the pd coordination core.

Data types mirror the kvproto metapb messages used by the source
(`RegionEpoch`, `Peer`, `Region`, `Buckets`) and the pd `core.RegionInfo`
wrapper. Byte strings are lists of byte values (`Nat` below 256 by
construction). Functions present in the source tree are translated directly;
functions whose code is not in the tree (the etcd-backed membership registry,
`HandleRegionHeartbeat`, `HandleReportBuckets`, `testutil.Eventually`) are
modelled from the specification, each marked `Modelled from the spec:` in its
doc comment.
-/

namespace PD

/-- metapb.RegionEpoch: the (conf-version, version) pair of a Region. -/
structure RegionEpoch where
  confVer : Nat
  version : Nat
deriving DecidableEq, Repr

/-- metapb.Peer: a replica of a region placed on a store. -/
structure Peer where
  id : Nat
  storeId : Nat
deriving DecidableEq, Repr

/-- metapb.Region: id, key range, peers and epoch. -/
structure Region where
  id : Nat
  startKey : List Nat
  endKey : List Nat
  peers : List Peer
  regionEpoch : RegionEpoch
deriving DecidableEq, Repr

/-- metapb.Buckets: sub-range statistics record of a region, with its own
version counter and reporting period. Bucket boundary keys are kept; the
per-bucket load statistics are not inspected by any code under
verification, so they are omitted from the record. -/
structure Buckets where
  regionId : Nat
  version : Nat
  keys : List (List Nat)
  periodInMs : Nat
deriving DecidableEq, Repr

/-- core.RegionInfo: a region record as stored by the cluster state store,
with the designated leader peer and the optional buckets record attached. -/
structure RegionInfo where
  meta : Region
  leader : Peer
  buckets : Option Buckets
deriving DecidableEq, Repr

/-! ## Epoch comparison and region heartbeat ingestion (modelled) -/

/-- Modelled from the spec: epoch comparison is lexicographic, conf-version
first, then version (spec section 3, Region invariant). `epochLt a b` holds
when `a` is strictly lower than `b`. -/
def epochLt (a b : RegionEpoch) : Bool :=
  (a.confVer < b.confVer) || (a.confVer == b.confVer && a.version < b.version)

/-- The lexicographically larger of two epochs. -/
def epochMax (a b : RegionEpoch) : RegionEpoch :=
  if epochLt b a then a else b

/-- The region table of the cluster state store, keyed by region id. -/
def ClusterRegions : Type := Nat → Option RegionInfo

/-- The empty region table. -/
def emptyRegions : ClusterRegions := fun _ => none

/-- Modelled from the spec: `HandleRegionHeartbeat` (spec section 4.4), whose
implementation is not in the tree (only its caller `MustPutRegionInfo` is).
Looks up the existing record for the incoming region id; a report whose epoch
is strictly lower than the stored epoch is discarded and the call returns
success (stale-report tolerance); an equal-or-higher epoch replaces the record
in place. The cross-id key-range reconciliation of step 3 concerns split and
merge reassignment between distinct ids and is outside the per-id claims
verified here, so it is not modelled. The second component is the returned
error, always `none` (success). -/
def HandleRegionHeartbeat (s : ClusterRegions) (r : RegionInfo) :
    ClusterRegions × Option String :=
  (fun id =>
    if id = r.meta.id then
      match s r.meta.id with
      | none => some r
      | some cur =>
        if epochLt r.meta.regionEpoch cur.meta.regionEpoch then some cur
        else some r
    else s id, none)

/-- Apply a sequence of region heartbeats in order. -/
def applyHeartbeats (s : ClusterRegions) (rs : List RegionInfo) : ClusterRegions :=
  rs.foldl (fun acc r => (HandleRegionHeartbeat acc r).1) s

/-! ## Bucket report ingestion (modelled) -/

/-- The uninitialized sentinel buckets version. `InitRegions` materialises the
sentinel as the zero-valued `metapb.Buckets` record, whose version is 0. -/
def bucketsSentinelVersion : Nat := 0

/-- Modelled from the spec: `HandleReportBuckets` (spec section 4.4), whose
implementation is not in the tree (only its caller `MustReportBuckets` is).
The state is the stored buckets record of one region (`none` when the region
has never stored one). A report whose version is strictly greater than the
stored version replaces the record; an equal-or-lower version is discarded
without error, except that a stored record at the uninitialized sentinel
version always accepts the incoming report. The second component is the
returned error, always `none` (success). -/
def HandleReportBuckets (s : Option Buckets) (b : Buckets) :
    Option Buckets × Option String :=
  match s with
  | none => (some b, none)
  | some cur =>
    if cur.version = bucketsSentinelVersion then (some b, none)
    else if cur.version < b.version then (some b, none)
    else (some cur, none)

/-- Apply a sequence of bucket reports for one region in order. -/
def applyBucketReports (s : Option Buckets) (bs : List Buckets) : Option Buckets :=
  bs.foldl (fun acc b => (HandleReportBuckets acc b).1) s

/-! ## Membership registry (modelled) -/

/-- A registry member: numeric id, human name, election priority. -/
structure Member where
  id : Nat
  name : String
  priority : Int
deriving DecidableEq, Repr

/-- A member identifier on the administrative surface: either the numeric id
or the human name. -/
inductive MemberRef where
  | byId (id : Nat)
  | byName (name : String)
deriving DecidableEq, Repr

/-- Whether a member matches an identifier. -/
def matchesRef (ref : MemberRef) (m : Member) : Bool :=
  match ref with
  | .byId i => m.id == i
  | .byName n => m.name == n

/-- The membership registry: the set of registered members (one shared record
per member, reachable both by id and by name). -/
structure MembershipState where
  members : List Member
deriving DecidableEq, Repr

/-- Modelled from the spec: `Unregister` (spec section 4.3), whose etcd-backed
implementation is not in the tree (only the pd-ctl test exercising it is).
Removes the matching member record; unregistering an identifier that matches
no registered member is an idempotent no-op success, never an error, so the
returned error is always `none`. -/
def Unregister (st : MembershipState) (ref : MemberRef) :
    MembershipState × Option String :=
  (⟨st.members.filter (fun m => !(matchesRef ref m))⟩, none)

/-- Modelled from the spec: listing the registry (spec section 4.3). -/
def ListMembers (st : MembershipState) : List Member :=
  st.members

/-- Modelled from the spec: the leader-priority administrative command, keyed
by member name (spec sections 4.3 and 6); its etcd-backed implementation is
not in the tree. Updates the priority on the shared record of the named
member; an unknown name is an error. -/
def SetPriorityByName (st : MembershipState) (name : String) (v : Int) :
    MembershipState × Option String :=
  if st.members.any (fun m => m.name == name) then
    (⟨st.members.map (fun m => if m.name == name then { m with priority := v } else m)⟩,
     none)
  else (st, some "UnknownMember")

/-- Modelled from the spec: `GetMemberLeaderPriority`, lookup of a member
record by numeric id (spec section 4.3); its etcd-backed implementation is
not in the tree. -/
def GetMemberLeaderPriority (st : MembershipState) (id : Nat) : Option Int :=
  match st.members.find? (fun m => m.id == id) with
  | some m => some m.priority
  | none => none

/-! ## InitLogger: run-once logger setup (translated from the source) -/

/-- The process-wide state touched by `InitLogger`: whether the `sync.Once`
guard has already run its function, how many times the underlying setup ran,
and whether the global logger was replaced. The run counter and the
replacement flag are observers used to state the run-once property. -/
structure LoggerProcState where
  onceDone : Bool
  setupRuns : Nat
  globalsReplaced : Bool
deriving DecidableEq, Repr

/-- The state of a fresh process: the once guard untriggered, no setup run. -/
def freshLoggerState : LoggerProcState := ⟨false, 0, false⟩

/-- Translated from `InitLogger` in the source. `once.Do` runs its function
only when the guard has not fired yet and marks the guard fired afterwards in
every case. Inside the function, `logutil.SetupLogger` runs (its code is not
in the tree, so it is abstracted as the oracle `setup` from the call
arguments to an optional error); on a setup error the function returns early
and the global logger is not replaced. The named return value starts as `nil`
on every call, so a call that skips the guarded function returns `none`
whatever its arguments are. -/
def InitLogger {α : Type} (setup : α → Option String) (s : LoggerProcState)
    (args : α) : LoggerProcState × Option String :=
  if s.onceDone then (s, none)
  else
    match setup args with
    | some e => (⟨true, s.setupRuns + 1, s.globalsReplaced⟩, some e)
    | none => (⟨true, s.setupRuns + 1, true⟩, none)

/-- Run a sequence of `InitLogger` calls in one process, collecting the
returned errors. -/
def runInitLogger {α : Type} (setup : α → Option String) :
    LoggerProcState → List α → LoggerProcState × List (Option String)
  | s, [] => (s, [])
  | s, a :: rest =>
    let p := InitLogger setup s a
    let q := runInitLogger setup p.1 rest
    (q.1, p.2 :: q.2)

/-! ## WaitForPrimaryServing (translated, with Eventually modelled) -/

/-- The server map passed to `WaitForPrimaryServing`: each server has a name
and an `IsServing()` status sampled at discrete polling ticks. -/
abbrev ServerMap : Type := List (String × (Nat → Bool))

/-- The loop body of `WaitForPrimaryServing`: scan the server map and yield
the name of the first server whose `IsServing()` is true at tick `t`. -/
def findServing : ServerMap → Nat → Option String
  | [], _ => none
  | (name, f) :: rest, t => if f t then some name else findServing rest t

/-- Modelled from the spec: `testutil.Eventually` (the primary-wait contract,
spec section 6), whose code is not in the tree. Polls the check once per
tick, starting at tick `t` with `fuel` polls remaining, and returns the
payload of the first successful poll, or `none` once the poll budget is
exhausted. -/
def eventuallyPoll (check : Nat → Option String) : Nat → Nat → Option String
  | _, 0 => none
  | t, fuel + 1 =>
    match check t with
    | some v => some v
    | none => eventuallyPoll check (t + 1) fuel

/-- The poll budget of `WaitForPrimaryServing` in the source: a 10 second
wait bound polled at 50 millisecond ticks, 200 polls. -/
def waitForPrimaryTicks : Nat := 200

/-- Translated from `WaitForPrimaryServing` in the source: waits for one of
the servers to be serving and returns its name. The wait is bounded by the
poll budget; on timeout it fails (the primary-wait contract surfaces this as
the no-primary-available error) instead of blocking forever. -/
def WaitForPrimaryServing (servers : ServerMap) : Except String String :=
  match eventuallyPoll (findServing servers) 0 waitForPrimaryTicks with
  | some name => Except.ok name
  | none => Except.error "no primary available"

/-! ## InitRegions (translated from the source) -/

/-- Truncation to one byte, as the Go conversion `byte(i)` does. -/
def byteOf (i : Nat) : Nat := i % 256

/-- One iteration of the loop body of `InitRegions` at index `i` of `n`,
with `alloc` ids already handed out by the mock id allocator (which hands out
1, 2, 3, ...). The region id is drawn first, then the three peer ids on
stores 1, 2 and 3. The start key is `[byte i]` and the end key `[byte
(i+1)]`, except that index 0 resets the start key to empty, and otherwise the
last index resets the end key to empty. Indices below `n / 2` attach a
buckets record at version 1 spanning the region range; the rest attach the
zero-valued buckets record (the uninitialized sentinel). Returns the built
region and the advanced allocator state. -/
def mkInitRegion (alloc i n : Nat) : RegionInfo × Nat :=
  let rid := alloc + 1
  let p1 : Peer := ⟨alloc + 2, 1⟩
  let p2 : Peer := ⟨alloc + 3, 2⟩
  let p3 : Peer := ⟨alloc + 4, 3⟩
  let startKey : List Nat := if i = 0 then [] else [byteOf i]
  let endKey : List Nat := if i ≠ 0 ∧ i = n - 1 then [] else [byteOf (i + 1)]
  let buckets : Buckets :=
    if i < n / 2 then ⟨rid, 1, [startKey, endKey], 0⟩
    else ⟨0, 0, [], 0⟩
  (⟨⟨rid, startKey, endKey, [p1, p2, p3], ⟨1, 1⟩⟩, p1, some buckets⟩, alloc + 4)

/-- The loop of `InitRegions`: `k` iterations remain, the current index is
`i`, and `alloc` ids have been handed out. -/
def initRegionsFrom (n : Nat) : Nat → Nat → Nat → List RegionInfo
  | 0, _, _ => []
  | k + 1, i, alloc =>
    let pr := mkInitRegion alloc i n
    pr.1 :: initRegionsFrom n k (i + 1) pr.2

/-- Translated from `InitRegions` in the source: builds `n` regions indexed
0 to `n - 1`, threading the mock id allocator through the loop. -/
def InitRegions (n : Nat) : List RegionInfo := initRegionsFrom n n 0 0

/-! ## Helper lemmas on epoch comparison -/

theorem epochLt_iff (a b : RegionEpoch) :
    epochLt a b = true ↔
      a.confVer < b.confVer ∨ (a.confVer = b.confVer ∧ a.version < b.version) := by
  simp [epochLt]

theorem epochLt_false_iff (a b : RegionEpoch) :
    epochLt a b = false ↔
      ¬(a.confVer < b.confVer ∨ (a.confVer = b.confVer ∧ a.version < b.version)) := by
  rw [← epochLt_iff]
  cases h : epochLt a b <;> simp

theorem epochLt_irrefl (a : RegionEpoch) : epochLt a a = false := by
  rw [epochLt_false_iff]; omega

theorem epochLt_asymm {a b : RegionEpoch} (h : epochLt a b = true) :
    epochLt b a = false := by
  rw [epochLt_iff] at h; rw [epochLt_false_iff]; omega

theorem epochLt_ge_trans {a b c : RegionEpoch} (h1 : epochLt a b = false)
    (h2 : epochLt b c = false) : epochLt a c = false := by
  rw [epochLt_false_iff] at h1 h2 ⊢; omega

/-! ## Helper lemmas on region heartbeat ingestion -/

/-- The per-slot effect of one heartbeat on the record stored under the id of
the report. -/
def slotStep (o : Option RegionInfo) (r : RegionInfo) : Option RegionInfo :=
  match o with
  | none => some r
  | some cur =>
    if epochLt r.meta.regionEpoch cur.meta.regionEpoch then some cur else some r

theorem handle_slot (s : ClusterRegions) (r : RegionInfo) :
    (HandleRegionHeartbeat s r).1 r.meta.id = slotStep (s r.meta.id) r := by
  simp [HandleRegionHeartbeat, slotStep]

theorem handle_other (s : ClusterRegions) (r : RegionInfo) {id : Nat}
    (h : id ≠ r.meta.id) : (HandleRegionHeartbeat s r).1 id = s id := by
  simp [HandleRegionHeartbeat, h]

theorem slotStep_idem (o : Option RegionInfo) (r : RegionInfo) :
    slotStep (slotStep o r) r = slotStep o r := by
  cases o with
  | none => simp [slotStep, epochLt_irrefl]
  | some cur =>
    by_cases h : epochLt r.meta.regionEpoch cur.meta.regionEpoch = true
    · simp [slotStep, h]
    · simp only [Bool.not_eq_true] at h
      simp [slotStep, h, epochLt_irrefl]

theorem applyHeartbeats_slot (id : Nat) :
    ∀ (rs : List RegionInfo) (s : ClusterRegions), (∀ r ∈ rs, r.meta.id = id) →
      applyHeartbeats s rs id = rs.foldl slotStep (s id) := by
  intro rs
  induction rs with
  | nil => intro s _; rfl
  | cons r tl ih =>
    intro s hall
    have hid : r.meta.id = id := hall r (List.mem_cons_self r tl)
    have step : (HandleRegionHeartbeat s r).1 id = slotStep (s id) r := by
      rw [← hid]; exact handle_slot s r
    calc applyHeartbeats s (r :: tl) id
        = applyHeartbeats (HandleRegionHeartbeat s r).1 tl id := rfl
      _ = tl.foldl slotStep ((HandleRegionHeartbeat s r).1 id) :=
          ih (HandleRegionHeartbeat s r).1 (fun x hx => hall x (List.mem_cons_of_mem r hx))
      _ = tl.foldl slotStep (slotStep (s id) r) := by rw [step]
      _ = (r :: tl).foldl slotStep (s id) := rfl

theorem slot_fold_max :
    ∀ (rs : List RegionInfo) (cur : RegionInfo),
      ∃ rec, rs.foldl slotStep (some cur) = some rec ∧
        rec.meta.regionEpoch ∈
          cur.meta.regionEpoch :: rs.map (fun r => r.meta.regionEpoch) ∧
        ∀ e ∈ cur.meta.regionEpoch :: rs.map (fun r => r.meta.regionEpoch),
          epochLt rec.meta.regionEpoch e = false := by
  intro rs
  induction rs with
  | nil =>
    intro cur
    refine ⟨cur, rfl, List.mem_cons_self _ _, ?_⟩
    intro e he
    simp only [List.map_nil, List.mem_cons, List.not_mem_nil, or_false] at he
    rw [he]; exact epochLt_irrefl _
  | cons r tl ih =>
    intro cur
    by_cases h : epochLt r.meta.regionEpoch cur.meta.regionEpoch = true
    · have hstep : (r :: tl).foldl slotStep (some cur) = tl.foldl slotStep (some cur) := by
        simp [slotStep, h]
      obtain ⟨rec, heq, hmem, hmax⟩ := ih cur
      refine ⟨rec, by rw [hstep]; exact heq, ?_, ?_⟩
      · rcases List.mem_cons.mp hmem with h1 | h1
        · exact List.mem_cons.mpr (Or.inl h1)
        · exact List.mem_cons.mpr (Or.inr (by simp [h1]))
      · intro e he
        rcases List.mem_cons.mp he with h1 | h1
        · exact h1 ▸ hmax _ (List.mem_cons_self _ _)
        · simp only [List.map_cons, List.mem_cons] at h1
          rcases h1 with h2 | h2
          · rw [h2]
            exact epochLt_ge_trans (hmax _ (List.mem_cons_self _ _)) (epochLt_asymm h)
          · exact hmax _ (List.mem_cons.mpr (Or.inr h2))
    · simp only [Bool.not_eq_true] at h
      have hstep : (r :: tl).foldl slotStep (some cur) = tl.foldl slotStep (some r) := by
        simp [slotStep, h]
      obtain ⟨rec, heq, hmem, hmax⟩ := ih r
      refine ⟨rec, by rw [hstep]; exact heq, ?_, ?_⟩
      · rcases List.mem_cons.mp hmem with h1 | h1
        · exact List.mem_cons.mpr (Or.inr (by simp [h1]))
        · exact List.mem_cons.mpr (Or.inr (by simp [List.mem_cons.mpr (Or.inr h1)]))
      · intro e he
        rcases List.mem_cons.mp he with h1 | h1
        · rw [h1]
          exact epochLt_ge_trans (hmax _ (List.mem_cons_self _ _)) h
        · simp only [List.map_cons, List.mem_cons] at h1
          rcases h1 with h2 | h2
          · exact h2 ▸ hmax _ (List.mem_cons_self _ _)
          · exact hmax _ (List.mem_cons.mpr (Or.inr h2))

/-! ## Claim theorems: heartbeat ingestion -/

/-- C4: region heartbeat ingestion is idempotent — for every region report
and every cluster state, applying `HandleRegionHeartbeat` twice in succession
yields the same stored state as applying it once, and both applications
return success. -/
theorem C4_heartbeat_idempotent (s : ClusterRegions) (r : RegionInfo) :
    (HandleRegionHeartbeat s r).2 = none ∧
    (HandleRegionHeartbeat (HandleRegionHeartbeat s r).1 r).2 = none ∧
    ∀ id, (HandleRegionHeartbeat (HandleRegionHeartbeat s r).1 r).1 id =
          (HandleRegionHeartbeat s r).1 id := by
  refine ⟨rfl, rfl, ?_⟩
  intro id
  by_cases h : id = r.meta.id
  · subst h
    rw [handle_slot, handle_slot, slotStep_idem]
  · rw [handle_other _ _ h, handle_other _ _ h]

/-- C5: region epoch ingestion is monotone and order-insensitive — for every
region id and every nonempty sequence of reports for that id, the final
stored epoch is the lexicographic maximum (conf-version first, then version)
of the epochs seen, and a report whose epoch is strictly lower than the
stored epoch never changes any stored data. -/
theorem C5_epoch_monotone :
    (∀ (id : Nat) (rs : List RegionInfo), rs ≠ [] →
      (∀ r ∈ rs, r.meta.id = id) →
      ∃ rec, applyHeartbeats emptyRegions rs id = some rec ∧
        rec.meta.regionEpoch ∈ rs.map (fun r => r.meta.regionEpoch) ∧
        ∀ e ∈ rs.map (fun r => r.meta.regionEpoch),
          epochLt rec.meta.regionEpoch e = false) ∧
    (∀ (s : ClusterRegions) (r cur : RegionInfo), s r.meta.id = some cur →
      epochLt r.meta.regionEpoch cur.meta.regionEpoch = true →
      ∀ id, (HandleRegionHeartbeat s r).1 id = s id) := by
  constructor
  · intro id rs hne hall
    match rs, hne with
    | r0 :: rest, _ =>
      have hfold : applyHeartbeats emptyRegions (r0 :: rest) id =
          rest.foldl slotStep (some r0) := by
        rw [applyHeartbeats_slot id (r0 :: rest) emptyRegions hall]
        rfl
      obtain ⟨rec, heq, hmem, hmax⟩ := slot_fold_max rest r0
      exact ⟨rec, by rw [hfold]; exact heq, by simpa using hmem, by simpa using hmax⟩
  · intro s r cur hcur hlt id
    by_cases h : id = r.meta.id
    · subst h
      rw [handle_slot, hcur]
      simp [slotStep, hlt]
    · exact handle_other s r h

/-- One concrete region report for region id 7 with the given epoch pair,
used to exercise the heartbeat theorems. -/
def demoReport (cv v : Nat) : RegionInfo :=
  ⟨⟨7, [], [], [⟨70, 1⟩], ⟨cv, v⟩⟩, ⟨70, 1⟩, none⟩

/-- A cluster state holding a (2, 1)-epoch record under region id 7. -/
def demoStaleState : ClusterRegions :=
  fun id => if id = 7 then some (demoReport 2 1) else none

theorem C5_witness :
    (∃ rec,
      applyHeartbeats emptyRegions
        [demoReport 1 2, demoReport 2 1, demoReport 1 5] 7 = some rec ∧
      rec.meta.regionEpoch ∈
        [demoReport 1 2, demoReport 2 1, demoReport 1 5].map
          (fun r => r.meta.regionEpoch) ∧
      ∀ e ∈ [demoReport 1 2, demoReport 2 1, demoReport 1 5].map
          (fun r => r.meta.regionEpoch),
        epochLt rec.meta.regionEpoch e = false) ∧
    (HandleRegionHeartbeat demoStaleState (demoReport 1 2)).1 7 =
      demoStaleState 7 := by
  constructor
  · exact C5_epoch_monotone.1 7 [demoReport 1 2, demoReport 2 1, demoReport 1 5]
      (by decide) (by decide)
  · exact C5_epoch_monotone.2 demoStaleState (demoReport 1 2) (demoReport 2 1)
      rfl (by decide) 7

/-! ## Claim theorems: bucket report ingestion -/

/-- One concrete buckets record for region 9 at the given version. -/
def demoBucket (v : Nat) : Buckets := ⟨9, v, [], 10000⟩

/-- C6: `HandleReportBuckets` replaces the stored record exactly when the
incoming version is strictly greater than the stored one, discards
equal-or-lower versions without error, accepts any report when the stored
version is the uninitialized sentinel, and on the version sequence
[3, 1, 5, 2] for one region ends at version 5 with the version 1 and
version 2 reports as no-ops. -/
theorem C6_report_buckets :
    (∀ cur b : Buckets, cur.version ≠ bucketsSentinelVersion →
      (cur.version < b.version → HandleReportBuckets (some cur) b = (some b, none)) ∧
      (b.version ≤ cur.version → HandleReportBuckets (some cur) b = (some cur, none)) ∧
      (b ≠ cur →
        ((HandleReportBuckets (some cur) b).1 = some b ↔ cur.version < b.version))) ∧
    (∀ cur b : Buckets, cur.version = bucketsSentinelVersion →
      HandleReportBuckets (some cur) b = (some b, none)) ∧
    (applyBucketReports (some (demoBucket 0))
        [demoBucket 3, demoBucket 1, demoBucket 5, demoBucket 2] =
        some (demoBucket 5) ∧
      (HandleReportBuckets (some (demoBucket 3)) (demoBucket 1)).1 =
        some (demoBucket 3) ∧
      (HandleReportBuckets (some (demoBucket 5)) (demoBucket 2)).1 =
        some (demoBucket 5)) := by
  refine ⟨?_, ?_, by decide⟩
  · intro cur b hne
    refine ⟨?_, ?_, ?_⟩
    · intro hlt
      simp [HandleReportBuckets, hne, hlt]
    · intro hle
      simp [HandleReportBuckets, hne, Nat.not_lt.mpr hle]
    · intro hneq
      by_cases hlt : cur.version < b.version
      · simp [HandleReportBuckets, hne, hlt]
      · have hres : (HandleReportBuckets (some cur) b).1 = some cur := by
          simp [HandleReportBuckets, hne, hlt]
        rw [hres]
        constructor
        · intro hsome
          exact absurd (Option.some_injective _ hsome).symm hneq
        · intro h2
          exact absurd h2 hlt
  · intro cur b hsent
    simp [HandleReportBuckets, hsent, bucketsSentinelVersion]

theorem C6_witness :
    HandleReportBuckets (some (demoBucket 3)) (demoBucket 5) =
      (some (demoBucket 5), none) ∧
    HandleReportBuckets (some (demoBucket 3)) (demoBucket 2) =
      (some (demoBucket 3), none) ∧
    HandleReportBuckets (some (demoBucket 0)) (demoBucket 7) =
      (some (demoBucket 7), none) := by
  refine ⟨?_, ?_, ?_⟩
  · exact (C6_report_buckets.1 (demoBucket 3) (demoBucket 5) (by decide)).1 (by decide)
  · exact (C6_report_buckets.1 (demoBucket 3) (demoBucket 2) (by decide)).2.1 (by decide)
  · exact C6_report_buckets.2.1 (demoBucket 0) (demoBucket 7) rfl

/-! ## Claim theorems: membership registry -/

/-- C2: unregistering is idempotent at the public interface — deleting an
identifier that matches no registered member returns success and leaves the
registry unchanged. -/
theorem C2_unregister_absent_noop (st : MembershipState) (ref : MemberRef)
    (habs : ∀ m ∈ st.members, matchesRef ref m = false) :
    Unregister st ref = (st, none) := by
  unfold Unregister
  have hfil : st.members.filter (fun m => !(matchesRef ref m)) = st.members :=
    List.filter_eq_self.mpr (fun m hm => by simp [habs m hm])
  cases st with
  | mk ms => simp only at hfil ⊢; rw [hfil]

/-- A registry holding the two members left after pd2 was removed. -/
def demoRegistryTwo : MembershipState := ⟨[⟨1, "pd1", 0⟩, ⟨3, "pd3", 0⟩]⟩

theorem C2_witness :
    Unregister demoRegistryTwo (MemberRef.byName "pd2") = (demoRegistryTwo, none) :=
  C2_unregister_absent_noop demoRegistryTwo (MemberRef.byName "pd2") (by decide)

/-- The three-member registry of the pd-ctl member test: pd1, pd2, pd3. The
test captures both the id and the name of the pd2 server and later deletes
by that name and then by that id. -/
def testClusterMembers : MembershipState :=
  ⟨[⟨1, "pd1", 0⟩, ⟨2, "pd2", 0⟩, ⟨3, "pd3", 0⟩]⟩

/-- C1 counterexample: in the member test, the delete-by-id step uses the id
of the very member already removed by name (both were captured from the pd2
server), so after the second delete the member list still has 2 entries, not
1 — the size does not strictly decrease again. -/
theorem C1_counterexample :
    (ListMembers (Unregister
        (Unregister testClusterMembers (MemberRef.byName "pd2")).1
        (MemberRef.byId 2)).1).length = 2 ∧
    ¬ (ListMembers (Unregister
        (Unregister testClusterMembers (MemberRef.byName "pd2")).1
        (MemberRef.byId 2)).1).length = 1 := by
  decide

/-- C1 (amended): deleting the non-leader member pd2 by name strictly
decreases the registry from 3 members to 2 and is reflected in the member
list; the following delete by id in the test uses the id of that same
(already removed) member, so it is an idempotent no-op that returns success
and leaves the list at 2 members — not 1. Deleting a genuinely different
member by id from the 2-member registry would decrease the list to 1. -/
theorem C1_member_delete :
    (ListMembers testClusterMembers).length = 3 ∧
    (Unregister testClusterMembers (MemberRef.byName "pd2")).2 = none ∧
    (ListMembers (Unregister testClusterMembers (MemberRef.byName "pd2")).1).length = 2 ∧
    (∀ m ∈ ListMembers (Unregister testClusterMembers (MemberRef.byName "pd2")).1,
      m.name ≠ "pd2") ∧
    (Unregister (Unregister testClusterMembers (MemberRef.byName "pd2")).1
        (MemberRef.byId 2)).2 = none ∧
    (Unregister (Unregister testClusterMembers (MemberRef.byName "pd2")).1
        (MemberRef.byId 2)).1 =
      (Unregister testClusterMembers (MemberRef.byName "pd2")).1 ∧
    (ListMembers (Unregister (Unregister testClusterMembers (MemberRef.byName "pd2")).1
        (MemberRef.byId 3)).1).length = 1 := by
  decide

/-- Lookup by id after the name-keyed priority update: under distinct member
ids, the record found by the id of the targeted member is that same member
record with the update applied. -/
theorem find_map_priority (name : String) (v : Int) (target : Member) :
    ∀ l : List Member, target ∈ l → (l.map Member.id).Nodup →
      (l.map (fun m => if m.name == name then { m with priority := v } else m)).find?
          (fun m => m.id == target.id) =
        some (if target.name == name then { target with priority := v } else target) := by
  intro l
  induction l with
  | nil => intro hmem; exact absurd hmem (List.not_mem_nil target)
  | cons x tl ih =>
    intro hmem hnd
    simp only [List.map_cons, List.nodup_cons] at hnd
    have hidx : (if x.name == name then { x with priority := v } else x).id = x.id := by
      by_cases hx : x.name == name <;> simp [hx]
    rw [List.map_cons]
    by_cases hid : x.id = target.id
    · have hxt : x = target := by
        rcases List.mem_cons.mp hmem with h1 | h1
        · exact h1.symm
        · exact absurd (hid ▸ List.mem_map_of_mem Member.id h1) hnd.1
      subst hxt
      rw [List.find?_cons_of_pos _ (by rw [hidx]; exact beq_self_eq_true x.id)]
    · rw [List.find?_cons_of_neg _ (by rw [hidx]; exact ne_eq _ _ ▸ beq_eq_false_iff_ne.mpr hid ▸ Bool.false_ne_true)]
      have htl : target ∈ tl := by
        rcases List.mem_cons.mp hmem with h1 | h1
        · exact absurd (h1 ▸ rfl) hid
        · exact h1
      exact ih htl hnd.2

/-- C7: after the leader-priority command succeeds with value 100 for a
member named by its human name, looking up the same member by numeric id
returns exactly 100 — both keys reach one shared record. -/
theorem C7_priority_shared_record (st : MembershipState) (m : Member)
    (hm : m ∈ st.members) (hids : (st.members.map Member.id).Nodup) :
    (SetPriorityByName st m.name 100).2 = none ∧
    GetMemberLeaderPriority (SetPriorityByName st m.name 100).1 m.id = some 100 := by
  have hany : st.members.any (fun x => x.name == m.name) = true :=
    List.any_eq_true.mpr ⟨m, hm, by simp⟩
  constructor
  · simp [SetPriorityByName, hany]
  · simp only [SetPriorityByName, hany, if_true, GetMemberLeaderPriority]
    rw [find_map_priority m.name 100 m st.members hm hids]
    simp

/-- The three-member registry before the priority command of the member
test. -/
def demoRegistryThree : MembershipState :=
  ⟨[⟨1, "pd1", 0⟩, ⟨2, "pd2", 0⟩, ⟨3, "pd3", 0⟩]⟩

theorem C7_witness :
    (SetPriorityByName demoRegistryThree "pd2" 100).2 = none ∧
    GetMemberLeaderPriority (SetPriorityByName demoRegistryThree "pd2" 100).1 2 =
      some 100 :=
  C7_priority_shared_record demoRegistryThree ⟨2, "pd2", 0⟩ (by decide) (by decide)

/-! ## Claim theorems: primary wait -/

theorem eventuallyPoll_of_none (check : Nat → Option String) :
    ∀ (fuel t : Nat), (∀ j, j < fuel → check (t + j) = none) →
      eventuallyPoll check t fuel = none := by
  intro fuel
  induction fuel with
  | zero => intro t _; rfl
  | succ k ih =>
    intro t h
    have h0 : check t = none := by simpa using h 0 (Nat.succ_pos k)
    have hrec : eventuallyPoll check (t + 1) k = none := by
      refine ih (t + 1) (fun j hj => ?_)
      have := h (j + 1) (by omega)
      simpa [Nat.add_assoc, Nat.add_comm 1 j] using this
    simp [eventuallyPoll, h0, hrec]

theorem eventuallyPoll_isSome (check : Nat → Option String) :
    ∀ (fuel t j : Nat), j < fuel → (check (t + j)).isSome = true →
      (eventuallyPoll check t fuel).isSome = true := by
  intro fuel
  induction fuel with
  | zero => intro t j hj; exact absurd hj (Nat.not_lt_zero j)
  | succ k ih =>
    intro t j hj hsome
    cases h0 : check t with
    | some v => simp [eventuallyPoll, h0]
    | none =>
      cases j with
      | zero => rw [Nat.add_zero] at hsome; rw [h0] at hsome; simp at hsome
      | succ j2 =>
        have : (check (t + 1 + j2)).isSome = true := by
          have e : t + 1 + j2 = t + (j2 + 1) := by omega
          rw [e]; exact hsome
        have := ih (t + 1) j2 (by omega) this
        simpa [eventuallyPoll, h0] using this

theorem eventuallyPoll_sound (check : Nat → Option String) :
    ∀ (fuel t : Nat) (v : String), eventuallyPoll check t fuel = some v →
      ∃ j, j < fuel ∧ check (t + j) = some v := by
  intro fuel
  induction fuel with
  | zero => intro t v h; exact absurd h (by simp [eventuallyPoll])
  | succ k ih =>
    intro t v h
    cases h0 : check t with
    | some w =>
      have : some w = some v := by simpa [eventuallyPoll, h0] using h
      exact ⟨0, Nat.succ_pos k, by simpa using h0.trans this⟩
    | none =>
      have hrec : eventuallyPoll check (t + 1) k = some v := by
        simpa [eventuallyPoll, h0] using h
      obtain ⟨j, hj, hcheck⟩ := ih (t + 1) v hrec
      refine ⟨j + 1, by omega, ?_⟩
      have e : t + (j + 1) = t + 1 + j := by omega
      rw [e]; exact hcheck

theorem findServing_mem :
    ∀ (servers : ServerMap) (t : Nat) (name : String),
      findServing servers t = some name →
      ∃ f, (name, f) ∈ servers ∧ f t = true := by
  intro servers
  induction servers with
  | nil => intro t name h; exact absurd h (by simp [findServing])
  | cons p rest ih =>
    intro t name h
    obtain ⟨nm, f⟩ := p
    by_cases hf : f t = true
    · have : some nm = some name := by simpa [findServing, hf] using h
      have hn : nm = name := Option.some_injective _ this
      subst hn
      exact ⟨f, List.mem_cons_self _ _, hf⟩
    · simp only [Bool.not_eq_true] at hf
      have hrec : findServing rest t = some name := by
        simpa [findServing, hf] using h
      obtain ⟨g, hg, hgt⟩ := ih t name hrec
      exact ⟨g, List.mem_cons_of_mem _ hg, hgt⟩

/-- C8: the primary wait polls `IsServing()` and, when some server is serving
within the poll budget, returns the identity of a server observed serving; it
never hangs past the budget — when no server serves at any polled tick, it
returns the no-primary-available error. -/
theorem C8_wait_for_primary (servers : ServerMap) :
    ((∃ t, t < waitForPrimaryTicks ∧ (findServing servers t).isSome = true) →
      ∃ name f t, WaitForPrimaryServing servers = Except.ok name ∧
        t < waitForPrimaryTicks ∧ (name, f) ∈ servers ∧ f t = true) ∧
    ((∀ t, t < waitForPrimaryTicks → findServing servers t = none) →
      WaitForPrimaryServing servers = Except.error "no primary available") := by
  constructor
  · rintro ⟨t, ht, hsome⟩
    have h1 : (eventuallyPoll (findServing servers) 0 waitForPrimaryTicks).isSome = true :=
      eventuallyPoll_isSome (findServing servers) waitForPrimaryTicks 0 t ht
        (by simpa using hsome)
    obtain ⟨name, hname⟩ := Option.isSome_iff_exists.mp h1
    obtain ⟨j, hj, hcheck⟩ :=
      eventuallyPoll_sound (findServing servers) waitForPrimaryTicks 0 name hname
    obtain ⟨f, hmem, hft⟩ := findServing_mem servers (0 + j) name hcheck
    refine ⟨name, f, 0 + j, ?_, by simpa using hj, hmem, hft⟩
    unfold WaitForPrimaryServing
    rw [hname]
  · intro h
    have : eventuallyPoll (findServing servers) 0 waitForPrimaryTicks = none :=
      eventuallyPoll_of_none (findServing servers) waitForPrimaryTicks 0
        (fun j hj => by simpa using h j hj)
    unfold WaitForPrimaryServing
    rw [this]

/-- Two demo servers; the first starts serving at tick 3. -/
def demoServers : ServerMap :=
  [("scheduling-a", fun t => decide (3 ≤ t)), ("scheduling-b", fun _ => false)]

/-- One demo server that never serves. -/
def demoServersDown : ServerMap := [("scheduling-c", fun _ => false)]

theorem C8_witness :
    (∃ name f t, WaitForPrimaryServing demoServers = Except.ok name ∧
      t < waitForPrimaryTicks ∧ (name, f) ∈ demoServers ∧ f t = true) ∧
    WaitForPrimaryServing demoServersDown = Except.error "no primary available" := by
  constructor
  · exact (C8_wait_for_primary demoServers).1 ⟨3, by decide, rfl⟩
  · exact (C8_wait_for_primary demoServersDown).2 (fun t _ => rfl)

/-! ## Claim theorems: run-once logger setup -/

theorem runInitLogger_done {α : Type} (setup : α → Option String) :
    ∀ (calls : List α) (s : LoggerProcState), s.onceDone = true →
      runInitLogger setup s calls = (s, calls.map (fun _ => none)) := by
  intro calls
  induction calls with
  | nil => intro s _; rfl
  | cons a rest ih =>
    intro s h
    have hstep : InitLogger setup s a = (s, none) := by
      simp [InitLogger, h]
    simp [runInitLogger, hstep, ih s h]

/-- C9: logger initialization runs at most once per process — across any
sequence of `InitLogger` calls, only the first performs the underlying setup
(the run counter ends at one), the first call returns the setup result, and
every later call returns nil without retrying, even when the first setup
failed. -/
theorem C9_init_logger_once {α : Type} (setup : α → Option String)
    (first : α) (rest : List α) :
    (runInitLogger setup freshLoggerState (first :: rest)).1.setupRuns = 1 ∧
    (runInitLogger setup freshLoggerState (first :: rest)).2 =
      setup first :: rest.map (fun _ => none) := by
  cases h : setup first with
  | none =>
    have hstep : InitLogger setup freshLoggerState first = (⟨true, 1, true⟩, none) := by
      simp [InitLogger, freshLoggerState, h]
    have hrest := runInitLogger_done setup rest ⟨true, 1, true⟩ rfl
    constructor <;> simp [runInitLogger, hstep, hrest, h]
  | some e =>
    have hstep : InitLogger setup freshLoggerState first = (⟨true, 1, false⟩, some e) := by
      simp [InitLogger, freshLoggerState, h]
    have hrest := runInitLogger_done setup rest ⟨true, 1, false⟩ rfl
    constructor <;> simp [runInitLogger, hstep, hrest, h]

/-! ## Claim theorems: InitRegions -/

theorem initRegionsFrom_length (n : Nat) :
    ∀ (k i alloc : Nat), (initRegionsFrom n k i alloc).length = k := by
  intro k
  induction k with
  | zero => intro i alloc; rfl
  | succ k2 ih =>
    intro i alloc
    simp [initRegionsFrom, ih]

theorem initRegionsFrom_get (n : Nat) :
    ∀ (k j i alloc : Nat), j < k →
      (initRegionsFrom n k i alloc).get? j =
        some (mkInitRegion (alloc + 4 * j) (i + j) n).1 := by
  intro k
  induction k with
  | zero => intro j i alloc hj; exact absurd hj (Nat.not_lt_zero j)
  | succ k2 ih =>
    intro j i alloc hj
    cases j with
    | zero =>
      show some (mkInitRegion alloc i n).1 = some (mkInitRegion (alloc + 4 * 0) (i + 0) n).1
      norm_num
    | succ j2 =>
      show (initRegionsFrom n k2 (i + 1) (alloc + 4)).get? j2 =
        some (mkInitRegion (alloc + 4 * (j2 + 1)) (i + (j2 + 1)) n).1
      rw [ih j2 (i + 1) (alloc + 4) (by omega)]
      have e1 : alloc + 4 + 4 * j2 = alloc + 4 * (j2 + 1) := by ring
      have e2 : i + 1 + j2 = i + (j2 + 1) := by omega
      rw [e1, e2]

theorem initRegions_get (n i : Nat) (h : i < n) :
    (InitRegions n).get? i = some (mkInitRegion (4 * i) i n).1 := by
  unfold InitRegions
  rw [initRegionsFrom_get n n i 0 0 h]
  norm_num

theorem initRegions_get_lt (n i : Nat) {r : RegionInfo}
    (h : (InitRegions n).get? i = some r) : i < n := by
  by_contra hge
  rw [List.get?_eq_none.mpr (by rw [InitRegions, initRegionsFrom_length]; omega)] at h
  exact Option.noConfusion h

/-- C10 (amended): for every n at least 2, `InitRegions n` returns exactly n
regions tiling the keyspace — the first start key is empty, the last end key
is empty, adjacent regions share their boundary key — and every region
carries epoch (1, 1) and exactly three peers on stores 1, 2 and 3; regions
with index below n / 2 carry a buckets record at version 1 spanning the
region range, and the rest carry the zero-valued buckets record (the
uninitialized sentinel). For n = 1 the end-key reset is skipped, see the
counterexample. -/
theorem C10_init_regions (n : Nat) (hn : 2 ≤ n) :
    (InitRegions n).length = n ∧
    ∀ i r, (InitRegions n).get? i = some r →
      r.meta.regionEpoch = ⟨1, 1⟩ ∧
      r.meta.peers.map Peer.storeId = [1, 2, 3] ∧
      (i = 0 → r.meta.startKey = []) ∧
      (i = n - 1 → r.meta.endKey = []) ∧
      (∀ r2, (InitRegions n).get? (i + 1) = some r2 →
        r.meta.endKey = r2.meta.startKey) ∧
      (i < n / 2 →
        r.buckets = some ⟨r.meta.id, 1, [r.meta.startKey, r.meta.endKey], 0⟩) ∧
      (n / 2 ≤ i → r.buckets = some ⟨0, bucketsSentinelVersion, [], 0⟩) := by
  refine ⟨by rw [InitRegions, initRegionsFrom_length], ?_⟩
  intro i r hr
  have hi : i < n := initRegions_get_lt n i hr
  rw [initRegions_get n i hi] at hr
  have hr2 : r = (mkInitRegion (4 * i) i n).1 := (Option.some_injective _ hr).symm
  subst hr2
  refine ⟨rfl, rfl, ?_, ?_, ?_, ?_, ?_⟩
  · intro h0; subst h0; simp [mkInitRegion]
  · intro hlast
    have h0 : i ≠ 0 := by omega
    simp [mkInitRegion, h0, hlast]
    omega
  · intro r2 hr2
    have hi2 : i + 1 < n := initRegions_get_lt n (i + 1) hr2
    rw [initRegions_get n (i + 1) hi2] at hr2
    have he : r2 = (mkInitRegion (4 * (i + 1)) (i + 1) n).1 :=
      (Option.some_injective _ hr2).symm
    subst he
    have hne : ¬(i ≠ 0 ∧ i = n - 1) := by omega
    simp [mkInitRegion, hne]
  · intro hhalf; simp [mkInitRegion, hhalf]
  · intro hhalf
    have : ¬ i < n / 2 := by omega
    simp [mkInitRegion, this, bucketsSentinelVersion]

theorem C10_witness :
    (InitRegions 4).length = 4 ∧
    ∀ i r, (InitRegions 4).get? i = some r →
      r.meta.regionEpoch = ⟨1, 1⟩ ∧
      r.meta.peers.map Peer.storeId = [1, 2, 3] ∧
      (i = 0 → r.meta.startKey = []) ∧
      (i = 4 - 1 → r.meta.endKey = []) ∧
      (∀ r2, (InitRegions 4).get? (i + 1) = some r2 →
        r.meta.endKey = r2.meta.startKey) ∧
      (i < 4 / 2 →
        r.buckets = some ⟨r.meta.id, 1, [r.meta.startKey, r.meta.endKey], 0⟩) ∧
      (4 / 2 ≤ i → r.buckets = some ⟨0, bucketsSentinelVersion, [], 0⟩) :=
  C10_init_regions 4 (by decide)

/-- C10 counterexample: the claim fails at n = 1 — the loop resets the end
key of the last region only on indices other than 0, so the single region of
`InitRegions 1` has start key empty but end key [1], not empty. -/
theorem C10_counterexample :
    (InitRegions 1).length = 1 ∧
    ∀ r ∈ InitRegions 1, r.meta.startKey = [] ∧ r.meta.endKey = [1] ∧
      ¬ r.meta.endKey = [] := by
  decide

end PD
